import Mathlib

/-!
Verification development for the legacy-document section parser
(`modernizer/parser.py`): a shallow embedding of the paragraph-stream
classifier, section-tree builder, owner/designee block capturer and
revision-history extractor, together with theorems settling the
specification's claims about them.

Strings are modelled as `List Char`; paragraphs carry their rendered
text and a boldness flag.  The single forward pass is embedded as a
step function over an explicit parse state; the few places where the
original code would raise (attribute access on a missing current top)
are modelled by `Option`.
-/

namespace BulkDoc

/-- Python `str.strip()`: drop whitespace from both ends. -/
def pyStrip (s : List Char) : List Char :=
  ((s.dropWhile Char.isWhitespace).reverse.dropWhile Char.isWhitespace).reverse

/-- Python `str.lower()` (ASCII case folding, as used by the parser). -/
def lowerStr (s : List Char) : List Char :=
  s.map Char.toLower

/-- Source function normalize: `text.strip().lower()`. -/
def normalize (s : List Char) : List Char :=
  lowerStr (pyStrip s)

/-- True when `s` starts with `pre` (Python `str.startswith`). -/
def startsWith (s pre : List Char) : Bool :=
  pre.isPrefixOf s

/-- Substring test, Python `needle in hay`. -/
def containsSeq (needle : List Char) : List Char → Bool
  | [] => needle.isEmpty
  | c :: rest => needle.isPrefixOf (c :: rest) || containsSeq needle rest

/-- A digit or a literal dot: the character class of the numeric-prefix regex. -/
def isNumDot (c : Char) : Bool :=
  c.isDigit || c == '.'

/-- Source numeric-prefix stripper.  The regex
`NUM_PREFIX_PATTERN` is anchored `[digit-or-dot]+ ws* (rest)` where `rest`
is captured by `(.*)$`: dot cannot cross a newline and, on the
already-stripped input, `$` only matches at the end, so the regex matches
exactly when the stripped text begins with a digit or a dot AND the
remainder after the maximal digit-or-dot run and the following whitespace
run contains no embedded newline.  On a match that remainder is stripped
and returned; otherwise the stripped input is returned unchanged. -/
def stripNumericLead (text : List Char) : List Char :=
  let s := pyStrip text
  match s with
  | [] => s
  | c :: _ =>
    if isNumDot c then
      let r := (s.dropWhile isNumDot).dropWhile Char.isWhitespace
      if r.contains '\n' then s else pyStrip r
    else s

/-- Pattern SINGLE_LEVEL: digits, a dot, then at least one whitespace. -/
def matchSingleLevel (s : List Char) : Bool :=
  !(s.takeWhile Char.isDigit).isEmpty &&
    (match s.dropWhile Char.isDigit with
     | '.' :: c :: _ => c.isWhitespace
     | _ => false)

/-- Pattern SUBCLAUSE: optional whitespace, digits, a dot, a digit. -/
def matchTwoLevel (s : List Char) : Bool :=
  let s0 := s.dropWhile Char.isWhitespace
  !(s0.takeWhile Char.isDigit).isEmpty &&
    (match s0.dropWhile Char.isDigit with
     | '.' :: c :: _ => c.isDigit
     | _ => false)

/-- Pattern SUBSUBCLAUSE: optional whitespace, digits, dot, digits, dot, digit. -/
def matchThreeLevel (s : List Char) : Bool :=
  let s0 := s.dropWhile Char.isWhitespace
  match s0.dropWhile Char.isDigit with
  | '.' :: r1 =>
    !(s0.takeWhile Char.isDigit).isEmpty &&
      !(r1.takeWhile Char.isDigit).isEmpty &&
      (match r1.dropWhile Char.isDigit with
       | '.' :: c :: _ => c.isDigit
       | _ => false)
  | _ => false

/-- Consume a literal token at the front of `s`. -/
def eatToken (tok s : List Char) : Option (List Char) :=
  if tok.isPrefixOf s then some (s.drop tok.length) else none

/-- Consume at least one whitespace character at the front of `s`. -/
def eatWs1 (s : List Char) : Option (List Char) :=
  match s with
  | c :: rest => if c.isWhitespace then some (rest.dropWhile Char.isWhitespace) else none
  | [] => none

/-- Pattern PURPOSE_AND_SCOPE: case-insensitive `purpose ws+ and ws+ scope`. -/
def matchPurposeScope (s : List Char) : Bool :=
  (do
    let r ← eatToken "purpose".data (lowerStr s)
    let r ← eatWs1 r
    let r ← eatToken "and".data r
    let r ← eatWs1 r
    let _ ← eatToken "scope".data r
    pure ()).isSome

/-- Pattern PROCESS_DESIGNEE: case-insensitive `process ws+ designee`. -/
def matchProcessDesignee (s : List Char) : Bool :=
  (do
    let r ← eatToken "process".data (lowerStr s)
    let r ← eatWs1 r
    let _ ← eatToken "designee".data r
    pure ()).isSome

/-- Source list TOP_LEVEL_SEQUENCE, the canonical ordered keyword list. -/
def TLS : List (List Char) :=
  ["purpose".data, "scope".data, "definitions".data, "process owner".data,
   "procedures".data, "references".data, "related documents".data,
   "records".data, "policy reference".data, "revisions".data]

/-- An input paragraph: rendered text plus an emphasis (bold) flag. -/
structure Para where
  text : List Char
  bold : Bool
deriving DecidableEq

/-- A third-level node (`x.y.z`); its `children` list is never populated. -/
structure SubSubNode where
  heading : List Char
  content : List (List Char)
deriving DecidableEq

/-- A second-level node. -/
structure SubNode where
  heading : List Char
  content : List (List Char)
  subsubs : List SubSubNode
deriving DecidableEq

/-- A top-level section node. -/
structure TopNode where
  heading : List Char
  content : List (List Char)
  children : List SubNode
deriving DecidableEq

/-- The mutable cursor of the single pass.  `curSub`/`curSubSub` are
indices into the last top's children (resp. that sub's sub-subclauses),
mirroring the Python references into the tree being built. -/
structure St where
  sections : List TopNode
  curSub : Option Nat
  curSubSub : Option Nat
  nextTopIdx : Nat
  expectOwnerChild : Bool
  capturingOwner : Bool
  ownerBuffer : List (List Char)
  capturingDesignee : Bool
  designeeBuffer : List (List Char)
deriving DecidableEq

/-- Initial state of the pass: `next_top_idx = 2`, no current nodes. -/
def initSt : St :=
  ⟨[], none, none, 2, false, false, [], false, []⟩

/-- Apply `f` to the last element of a list. -/
def modifyLast (f : α → α) : List α → List α
  | [] => []
  | [a] => [f a]
  | a :: b :: rest => a :: modifyLast f (b :: rest)

/-- Apply `f` to the element at index `i`. -/
def modAt (f : α → α) : Nat → List α → List α
  | _, [] => []
  | 0, a :: rest => f a :: rest
  | n + 1, a :: rest => a :: modAt f n rest

/-- The last top of a sections list (what `current_top` refers to). -/
def lastTop? (secs : List TopNode) : Option TopNode :=
  secs.getLast?

/-- Child `i` of the last top of a sections list. -/
def subAt? (secs : List TopNode) (i : Nat) : Option SubNode :=
  (lastTop? secs).bind (fun t => t.children.get? i)

/-- Sub-subclause `j` of child `i` of the last top of a sections list. -/
def subsubAt? (secs : List TopNode) (i j : Nat) : Option SubSubNode :=
  (subAt? secs i).bind (fun s => s.subsubs.get? j)

/-- The node `current_top` refers to (the last created section), if any. -/
def curTop? (st : St) : Option TopNode :=
  lastTop? st.sections

/-- The node `current_sub` refers to, if any. -/
def curSubNode? (st : St) : Option SubNode :=
  match st.curSub with
  | some i => subAt? st.sections i
  | none => none

/-- The node `current_subsub` refers to, if any. -/
def curSubSubNode? (st : St) : Option SubSubNode :=
  match st.curSub, st.curSubSub with
  | some i, some j => subsubAt? st.sections i j
  | _, _ => none

/-- Number of children of the current top (the index a fresh child gets). -/
def childCount (st : St) : Nat :=
  ((curTop? st).map (fun t => t.children.length)).getD 0

/-- Number of sub-subclauses of child `i` of the current top. -/
def subsubCount (st : St) (i : Nat) : Nat :=
  (((curTop? st).bind (fun t => t.children.get? i)).map (fun s => s.subsubs.length)).getD 0

/-- Append a child node under the current top (no cursor change). -/
def appendChild (st : St) (c : SubNode) : St :=
  { st with sections := modifyLast (fun t => { t with children := t.children ++ [c] }) st.sections }

/-- Append a content line on the current top. -/
def modifyTopContent (st : St) (text : List Char) : St :=
  { st with sections := modifyLast (fun t => { t with content := t.content ++ [text] }) st.sections }

/-- Apply `f` to child `i` of the current top. -/
def modifySubAt (st : St) (i : Nat) (f : SubNode → SubNode) : St :=
  { st with sections := modifyLast (fun t => { t with children := modAt f i t.children }) st.sections }

/-- Apply `f` to sub-subclause `j` of child `i` of the current top. -/
def modifySubSubAt (st : St) (i j : Nat) (f : SubSubNode → SubSubNode) : St :=
  modifySubAt st i (fun s => { s with subsubs := modAt f j s.subsubs })

/-- Sequence-tracker advance performed inside `create_top`: move one step
only when the stripped, normalized heading starts with the expected keyword. -/
def advanceIdx (i : Nat) (sh : List Char) : Nat :=
  match TLS.get? i with
  | some kw => if startsWith sh kw then i + 1 else i
  | none => i

/-- Source operation create_top: append a fresh top, reset the cursors and
all capture state, and let the sequence tracker advance on a keyword match. -/
def createTop (st : St) (heading : List Char) : St :=
  { sections := st.sections ++ [⟨heading, [], []⟩]
    curSub := none
    curSubSub := none
    nextTopIdx := advanceIdx st.nextTopIdx (normalize (stripNumericLead heading))
    expectOwnerChild := false
    capturingOwner := false
    ownerBuffer := []
    capturingDesignee := false
    designeeBuffer := [] }

/-- Owner/designee flush: one child per non-empty stripped buffered line. -/
def flushChildren (buf : List (List Char)) : List SubNode :=
  ((buf.map pyStrip).filter (fun t => !t.isEmpty)).map (fun t => ⟨t, [], []⟩)

/-- The next expected keyword matches `low` (`startswith` comparison). -/
def seqKwMatch (st : St) (low : List Char) : Bool :=
  (TLS.get? st.nextTopIdx).any (fun kw => startsWith low kw)

/-- The shared `is_new_top` test of the designee / definitions / policy
blocks: a fresh single-level heading with no open subclause, or a match of
the next expected keyword. -/
def isNewTopFor (st : St) (text low : List Char) : Bool :=
  (st.curSub.isNone && matchSingleLevel text && !matchTwoLevel text) || seqKwMatch st low

/-- Result of one classification phase: the paragraph was fully consumed
(`done`, with `none` marking a crash of the original code), or control
falls through to the next phase with a possibly-updated state. -/
inductive PhaseRes where
  | done : Option St → PhaseRes
  | more : St → PhaseRes

/-- Sequence a phase result with the remaining classification chain. -/
def seqP (r : PhaseRes) (k : St → Option St) : Option St :=
  match r with
  | .done o => o
  | .more st => k st

/-- Lines 197–217: ongoing designee block — terminator flushes the buffer
into children of the current top and falls through; otherwise buffer. -/
def phaseDesignee (st : St) (text low : List Char) : PhaseRes :=
  if st.capturingDesignee then
    if isNewTopFor st text low then
      if st.sections.isEmpty && !(flushChildren st.designeeBuffer).isEmpty then .done none
      else
        .more { st with
          sections := modifyLast
            (fun t => { t with children := t.children ++ flushChildren st.designeeBuffer })
            st.sections
          designeeBuffer := []
          capturingDesignee := false }
    else .done (some { st with designeeBuffer := st.designeeBuffer ++ [text] })
  else .more st

/-- Lines 222–237: single-level numeric heading makes a new top; a
"process owner" heading arms the owner capture, anything else resets it. -/
def phaseSingle (st : St) (text low : List Char) : PhaseRes :=
  if matchSingleLevel text && !matchTwoLevel text then
    let st := createTop st text
    if startsWith low "process owner".data then
      .done (some { st with capturingOwner := true, ownerBuffer := [] })
    else
      .done (some { st with capturingOwner := false, ownerBuffer := [],
                            capturingDesignee := false, designeeBuffer := [] })
  else .more st

/-- Lines 242–272: ongoing owner block — a terminator (fresh single-level
heading, next expected keyword, or a process-designee line) flushes the
buffer and falls through; otherwise buffer. -/
def phaseOwner (st : St) (text stripped low : List Char) : PhaseRes :=
  if st.capturingOwner then
    if (matchSingleLevel text && !matchTwoLevel text) || seqKwMatch st low
        || matchProcessDesignee stripped then
      if st.sections.isEmpty && !(flushChildren st.ownerBuffer).isEmpty then .done none
      else
        .more { st with
          sections := modifyLast
            (fun t => { t with children := t.children ++ flushChildren st.ownerBuffer })
            st.sections
          ownerBuffer := []
          capturingOwner := false }
    else .done (some { st with ownerBuffer := st.ownerBuffer ++ [text] })
  else .more st

/-- Lines 277–283: keyword in sequence makes a new top; a keyword match on
"process owner" arms the single-line owner-child mode. -/
def phaseKeyword (st : St) (text low : List Char) : PhaseRes :=
  match TLS.get? st.nextTopIdx with
  | some kw =>
    if startsWith low kw then
      let st' := createTop st text
      .done (some (if kw = "process owner".data then { st' with expectOwnerChild := true } else st'))
    else .more st
  | none => .more st

/-- Lines 288–293: single-line process-owner child. -/
def phaseOwnerChild (st : St) (text : List Char) : PhaseRes :=
  if st.expectOwnerChild then
    if st.sections.isEmpty then .done none
    else
      .done (some { appendChild st ⟨text, [], []⟩ with
        curSub := some (childCount st), curSubSub := none, expectOwnerChild := false })
  else .more st

/-- Lines 298–308: a "process designee" line starts a synthetic
"Process Designees" top and arms the designee capture; text after a colon
on the same line is buffered immediately. -/
def phaseDesigneeStart (st : St) (stripped : List Char) : PhaseRes :=
  if matchProcessDesignee stripped then
    let st' := createTop st "Process Designees".data
    let buf : List (List Char) :=
      if stripped.contains ':' then
        let rem := pyStrip ((stripped.dropWhile (fun c => c ≠ ':')).drop 1)
        if rem.isEmpty then [] else [rem]
      else []
    .done (some { st' with capturingDesignee := true, designeeBuffer := buf })
  else .more st

/-- Lines 314–338: definitions mode — colon lines start a new child, other
lines are concatenated onto the previous child's heading. -/
def phaseDefinitions (st : St) (text low : List Char) : PhaseRes :=
  if (curTop? st).any (fun t => startsWith (normalize (stripNumericLead t.heading)) "definitions".data) then
    if isNewTopFor st text low then .more st
    else if text.contains ':' then
      .done (some { appendChild st ⟨text, [], []⟩ with
        curSub := some (childCount st), curSubSub := none })
    else
      match st.curSub with
      | some i =>
        .done (some (modifySubAt st i (fun s => { s with heading := s.heading ++ ' ' :: text })))
      | none =>
        .done (some { appendChild st ⟨text, [], []⟩ with curSub := some (childCount st) })
  else .more st

/-- Lines 343–367: policy-reference mode — bold lines start a new child,
plain lines become content of the current child. -/
def phasePolicy (st : St) (text low : List Char) (isBold : Bool) : PhaseRes :=
  if (curTop? st).any (fun t => startsWith (normalize (stripNumericLead t.heading)) "policy reference".data) then
    if isNewTopFor st text low then .more st
    else if isBold then
      .done (some { appendChild st ⟨text, [], []⟩ with curSub := some (childCount st) })
    else
      match st.curSub with
      | some i =>
        .done (some (modifySubAt st i (fun s => { s with content := s.content ++ [text] })))
      | none =>
        .done (some { appendChild st ⟨text, [text], []⟩ with curSub := some (childCount st) })
  else .more st

/-- Lines 372–376: bold sub-subclause under an open subclause. -/
def phaseSubSub (st : St) (text : List Char) (isBold : Bool) : PhaseRes :=
  if isBold && matchThreeLevel text then
    match st.curSub with
    | some i =>
      .done (some { modifySubAt st i (fun s => { s with subsubs := s.subsubs ++ [⟨text, []⟩] }) with
        curSubSub := some (subsubCount st i) })
    | none => .more st
  else .more st

/-- Lines 381–389: bold subclause — flat content under an exactly-"records"
top, otherwise a new child of the current top. -/
def phaseSub (st : St) (text : List Char) (isBold : Bool) : PhaseRes :=
  if isBold && matchTwoLevel text then
    if (curTop? st).any (fun t => normalize (stripNumericLead t.heading) = "records".data) then
      .done (some (modifyTopContent st text))
    else if st.sections.isEmpty then .done (some st)
    else
      .done (some { appendChild st ⟨text, [], []⟩ with
        curSub := some (childCount st), curSubSub := none })
  else .more st

/-- Lines 394–406: any other bold line — records content, content of the
deepest open node, or a promoted child of the current top. -/
def phaseOtherBold (st : St) (text : List Char) (isBold : Bool) : PhaseRes :=
  if isBold then
    if (curTop? st).any (fun t => normalize (stripNumericLead t.heading) = "records".data) then
      .done (some (modifyTopContent st text))
    else
      match st.curSub, st.curSubSub with
      | some i, some j =>
        .done (some (modifySubSubAt st i j (fun n => { n with content := n.content ++ [text] })))
      | some i, none =>
        .done (some (modifySubAt st i (fun s => { s with content := s.content ++ [text] })))
      | none, _ =>
        if st.sections.isEmpty then .done none
        else
          .done (some { appendChild st ⟨text, [], []⟩ with curSub := some (childCount st) })
  else .more st

/-- Lines 411–416: plain text attaches to the deepest active node and is
dropped when no node is active. -/
def phasePlain (st : St) (text : List Char) : Option St :=
  match st.curSub, st.curSubSub with
  | some i, some j =>
    some (modifySubSubAt st i j (fun n => { n with content := n.content ++ [text] }))
  | some i, none =>
    some (modifySubAt st i (fun s => { s with content := s.content ++ [text] }))
  | none, _ =>
    if st.sections.isEmpty then some st else some (modifyTopContent st text)

/-- One iteration of the main classification loop (lines 153–416). -/
def step (st : St) (p : Para) : Option St :=
  let text := pyStrip p.text
  if text.isEmpty then some st else
  let stripped := stripNumericLead text
  let low := normalize stripped
  let isBold := p.bold
  if startsWith low "records".data && (isBold || matchSingleLevel text) then
    some (createTop st text)
  else if startsWith low "policy reference".data && (isBold || matchSingleLevel text) then
    some (createTop st text)
  else if startsWith low "revision history".data then
    some st
  else
    seqP (phaseDesignee st text low) fun st =>
    seqP (phaseSingle st text low) fun st =>
    seqP (phaseOwner st text stripped low) fun st =>
    seqP (phaseKeyword st text low) fun st =>
    seqP (phaseOwnerChild st text) fun st =>
    seqP (phaseDesigneeStart st stripped) fun st =>
    seqP (phaseDefinitions st text low) fun st =>
    seqP (phasePolicy st text low isBold) fun st =>
    seqP (phaseSubSub st text isBold) fun st =>
    seqP (phaseSub st text isBold) fun st =>
    seqP (phaseOtherBold st text isBold) fun st =>
    phasePlain st text

/-- Lines 421–442: flush any still-buffered owner and designee lines. -/
def finalFlush (st : St) : St :=
  let st1 :=
    if st.capturingOwner && !st.sections.isEmpty && !st.ownerBuffer.isEmpty then
      { st with
        sections := modifyLast
          (fun t => { t with children := t.children ++ flushChildren st.ownerBuffer })
          st.sections
        ownerBuffer := []
        capturingOwner := false }
    else st
  if st1.capturingDesignee && !st1.sections.isEmpty && !st1.designeeBuffer.isEmpty then
    { st1 with
      sections := modifyLast
        (fun t => { t with children := t.children ++ flushChildren st1.designeeBuffer })
        st1.sections
      designeeBuffer := []
      capturingDesignee := false }
  else st1

/-- The whole paragraph pass (section building plus the final flushes),
starting from an explicit paragraph stream. -/
def buildSections (remaining : List Para) : Option St :=
  (remaining.foldl (fun ost p => ost.bind (fun st => step st p)) (some initSt)).map finalFlush

/-- The revision-history variant: a trailing table's rows, or free text. -/
inductive RevHist where
  | table : List (List (List Char)) → RevHist
  | written : List (List Char) → RevHist
deriving DecidableEq

/-- The document's tables, each a list of rows of raw cell texts. -/
abbrev DocTables := List (List (List (List Char)))

/-- Source function extract_revision_history: the last table with stripped cell texts,
else an empty written history. -/
def extractRevisionHistory (tables : DocTables) : RevHist :=
  match tables.getLast? with
  | some t => .table (t.map (fun row => row.map pyStrip))
  | none => .written []

/-- Source predicate _is_revision: the normalized, prefix-stripped heading contains the
substring "revision". -/
def isRevNode (h : List Char) : Bool :=
  containsSeq "revision".data (normalize (stripNumericLead h))

/-- Clear the content of the node `current_subsub` refers to. -/
def clearCurSubSub (st : St) : St :=
  match st.curSub, st.curSubSub with
  | some i, some j => modifySubSubAt st i j (fun n => { n with content := [] })
  | _, _ => st

/-- Clear the content of the node `current_sub` refers to. -/
def clearCurSub (st : St) : St :=
  match st.curSub with
  | some i => modifySubAt st i (fun s => { s with content := [] })
  | none => st

/-- Clear the content of the current top. -/
def clearCurTop (st : St) : St :=
  { st with sections := modifyLast (fun t => { t with content := [] }) st.sections }

/-- The deepest-active-first clearing chain shared by both branches of the
revision stage (lines 450–458 and 468–479). -/
def clearDeepRev (st : St) : St :=
  if (curSubSubNode? st).any (fun n => isRevNode n.heading) then clearCurSubSub st
  else if (curSubNode? st).any (fun n => isRevNode n.heading) then clearCurSub st
  else if (curTop? st).any (fun t => isRevNode t.heading) then clearCurTop st
  else st

/-- The content lines the written branch harvests: those of the deepest
active node whose heading mentions "revision" (lines 471–479). -/
def deepRevContent (st : St) : List (List Char) :=
  if (curSubSubNode? st).any (fun n => isRevNode n.heading) then
    ((curSubSubNode? st).map (fun n => n.content)).getD []
  else if (curSubNode? st).any (fun n => isRevNode n.heading) then
    ((curSubNode? st).map (fun n => n.content)).getD []
  else if (curTop? st).any (fun t => isRevNode t.heading) then
    ((curTop? st).map (fun t => t.content)).getD []
  else []

/-- Lines 447–486: the revision-history reconciliation after the pass. -/
def applyRevision (tables : DocTables) (st : St) : RevHist × List TopNode :=
  match extractRevisionHistory tables with
  | .table rows => (.table rows, (clearDeepRev st).sections)
  | .written _ => (.written (deepRevContent st), (clearDeepRev st).sections)

/-- The complete parse result. -/
structure ParseResult where
  document_title : List Char
  purpose_scope_block : List Char
  sections : List TopNode
  revision_history : RevHist
deriving DecidableEq

/-- Lines 95–104: locate the "Purpose and Scope" and "Definitions" anchors
(the scan breaks at the first "definitions" heading). -/
def findAnchors (paras : List Para) : Option Nat × Option Nat :=
  go paras 0 none
where
  go : List Para → Nat → Option Nat → Option Nat × Option Nat
    | [], _, ips => (ips, none)
    | p :: rest, i, ips =>
      let s := stripNumericLead p.text
      let low := normalize s
      let ips' := if ips.isNone && matchPurposeScope s then some i else ips
      if startsWith low "definitions".data then (ips', some i)
      else go rest (i + 1) ips'

/-- The purpose/scope block: stripped non-blank paragraph texts between the
two anchors, joined with newlines. -/
def purposeScopeOf (paras : List Para) (a b : Nat) : List Char :=
  List.intercalate ['\n']
    ((((paras.drop (a + 1)).take (b - (a + 1))).map (fun p => pyStrip p.text)).filter
      (fun t => !t.isEmpty))

/-- Source entry point parse_legacy_docx_by_sequence: the whole parse of one document, given
its non-style paragraph stream and its tables. -/
def parseLegacy (paras0 : List Para) (tables : DocTables) : Option ParseResult :=
  let paras := paras0.filter (fun p => !(pyStrip p.text).isEmpty)
  match paras with
  | [] => some ⟨[], [], [], .written []⟩
  | p0 :: _ =>
    let title :=
      match paras.find? (fun p => p.bold) with
      | some pb => pyStrip pb.text
      | none => pyStrip p0.text
    let anchors := findAnchors paras
    let psb :=
      match anchors with
      | (some a, some b) => if b ≤ a then [] else purposeScopeOf paras a b
      | _ => []
    let startIdx := anchors.2.getD paras.length
    match buildSections (paras.drop startIdx) with
    | none => none
    | some st =>
      let rs := applyRevision tables st
      some ⟨title, psb, rs.2, rs.1⟩

/-- The anchor scan failed: "Purpose and Scope" and "Definitions" were not
both located in order. -/
def anchorsFailB : Option Nat × Option Nat → Bool
  | (some a, some b) => decide (b ≤ a)
  | _ => true

/-- The spec's owner round-trip input: `["3. Process Owner", "Alice, Bob",
"4. Procedures"]`, all plain paragraphs. -/
def exC1owner : List Para :=
  [⟨"3. Process Owner".data, false⟩, ⟨"Alice, Bob".data, false⟩, ⟨"4. Procedures".data, false⟩]

/-- A designee block whose buffer is flushed by a single-level heading. -/
def exC1designee : List Para :=
  [⟨"Process Designees: Alice, Bob".data, false⟩, ⟨"4. Procedures".data, false⟩]

/-- A designee block with a two-line buffer flushed in-pass. -/
def exC1multi : List Para :=
  [⟨"Process Designees:".data, false⟩, ⟨"Alice, Bob".data, false⟩,
   ⟨"Carol".data, false⟩, ⟨"4. Procedures".data, false⟩]

/-- An owner block whose buffer is only flushed at end of input. -/
def exC1end : List Para :=
  [⟨"3. Process Owner".data, false⟩, ⟨"Alice, Bob".data, false⟩]

/-- A mid-pass state with an armed designee capture and a two-line buffer. -/
def wDesSt : St :=
  ⟨[⟨"Process Designees".data, [], []⟩], none, none, 2, false, false, [],
   true, ["Alice, Bob".data, "Carol".data]⟩

/-- A final state with an armed owner capture and a two-line buffer. -/
def wOwnSt : St :=
  ⟨[⟨"3. Process Owner".data, [], []⟩], none, none, 2, false, true,
   ["Alice, Bob".data, "Carol".data], false, []⟩

/-- A document in which neither anchor heading occurs. -/
def exC3 : List Para :=
  [⟨"4. Procedures".data, false⟩, ⟨"step one".data, false⟩]

/-- An emphasized sub-subclause-patterned paragraph with no open subclause. -/
def exC4 : List Para :=
  [⟨"4. Procedures".data, false⟩, ⟨"1.2.3 Orphan".data, true⟩]

/-- A records-family top whose stripped heading is not exactly "records". -/
def exC5 : List Para :=
  [⟨"2. Definitions".data, false⟩, ⟨"6. Records Management".data, false⟩,
   ⟨"6.1 Retention".data, true⟩]

/-- An owner capture terminated by a fresh single-level heading. -/
def exC6 : List Para :=
  [⟨"2. Definitions".data, false⟩, ⟨"3. Process Owner".data, false⟩,
   ⟨"Alice".data, false⟩, ⟨"4. Procedures".data, false⟩]

/-- A predicate holds of every state a phase can hand on (a crash of the
original code counts vacuously). -/
def ResInv (P : St → Prop) : PhaseRes → Prop
  | .done none => True
  | .done (some s) => P s
  | .more s => P s

/-- At most one of the owner/designee capture modes is armed. -/
def FlagInv (s : St) : Prop :=
  (s.capturingOwner && s.capturingDesignee) = false

/-- A one-top final state whose heading is "7. Revisions" and whose content
holds one stray line. -/
def wRevSt : St :=
  ⟨[⟨"7. Revisions".data, ["old line".data], []⟩], none, none, 2, false, false, [], false, []⟩

/-- The function modifyLast transforms exactly the last element. -/
theorem modifyLast_getLast? (f : α → α) :
    ∀ l : List α, (modifyLast f l).getLast? = l.getLast?.map f
  | [] => rfl
  | [a] => rfl
  | a :: b :: rest => by
    have ih := modifyLast_getLast? f (b :: rest)
    have h1 : modifyLast f (a :: b :: rest) = a :: modifyLast f (b :: rest) := rfl
    rw [h1, List.getLast?_cons_cons, ← ih]
    cases hm : modifyLast f (b :: rest) with
    | nil => cases rest <;> simp [modifyLast] at hm
    | cons x xs => exact List.getLast?_cons_cons

/-- The function modAt transforms exactly the element at the given index. -/
theorem modAt_get? (f : α → α) :
    ∀ (i : Nat) (l : List α), (modAt f i l).get? i = (l.get? i).map f
  | _, [] => by simp [modAt]
  | 0, a :: rest => rfl
  | n + 1, a :: rest => by
    have ih := modAt_get? f n rest
    simp only [modAt, List.get?_cons_succ, ih]

/-- C1 counterexample: on the spec's own round-trip input the "Process
Owner" top ends with no children at all — in particular not with the two
comma-split children "Alice" and "Bob" the claim requires — because the
single-level branch runs before the owner-capture flush and `create_top`
resets the buffer. -/
theorem owner_comma_split_cex :
    (buildSections exC1owner).map
        (fun st => st.sections.map (fun t => (t.heading, t.children.map (fun s => s.heading))))
      = some [("3. Process Owner".data, []), ("4. Procedures".data, [])] ∧
    ¬ ((buildSections exC1owner).map
        (fun st => (st.sections.headD ⟨[], [], []⟩).children.map (fun s => s.heading))
      = some ["Alice".data, "Bob".data]) := by decide

/-- C1 amended: whenever a buffered owner/designee block is actually
flushed — a designee-capture terminator (a fresh single-level heading with
no open subclause, or a next-expected-keyword match), an owner-capture
terminator that matches the next expected keyword or the process-designee
pattern (parser lines 255–264), or the end-of-input flush of either
buffer — the buffered lines are attached under the current top as one
child per non-empty stripped line, in encounter order, each line kept
whole and never split on comma; an owner capture hit by a fresh
single-level heading is instead discarded unflushed, so on the round-trip
input the "Process Owner" node ends with no children and the "Procedures"
top follows it. -/
theorem flush_keeps_lines_whole :
    (∀ buf, (flushChildren buf).map (fun c => c.heading)
        = (buf.map pyStrip).filter (fun t => !t.isEmpty) ∧
      ∀ c ∈ flushChildren buf, c.content = [] ∧ c.subsubs = []) ∧
    (∀ st text low, st.capturingDesignee = true → isNewTopFor st text low = true →
      st.sections ≠ [] →
      phaseDesignee st text low = .more { st with
        sections := modifyLast
          (fun t => { t with children := t.children ++ flushChildren st.designeeBuffer })
          st.sections,
        designeeBuffer := [], capturingDesignee := false } ∧
      lastTop? (modifyLast
          (fun t => { t with children := t.children ++ flushChildren st.designeeBuffer })
          st.sections)
        = (lastTop? st.sections).map
            (fun t => { t with children := t.children ++ flushChildren st.designeeBuffer })) ∧
    (∀ st text stripped low, st.capturingOwner = true →
      seqKwMatch st low = true ∨ matchProcessDesignee stripped = true →
      st.sections ≠ [] →
      phaseOwner st text stripped low = .more { st with
        sections := modifyLast
          (fun t => { t with children := t.children ++ flushChildren st.ownerBuffer })
          st.sections,
        ownerBuffer := [], capturingOwner := false } ∧
      lastTop? (modifyLast
          (fun t => { t with children := t.children ++ flushChildren st.ownerBuffer })
          st.sections)
        = (lastTop? st.sections).map
            (fun t => { t with children := t.children ++ flushChildren st.ownerBuffer })) ∧
    (∀ st, st.capturingOwner = true → st.capturingDesignee = false →
      st.sections ≠ [] → st.ownerBuffer ≠ [] →
      lastTop? (finalFlush st).sections
        = (lastTop? st.sections).map
            (fun t => { t with children := t.children ++ flushChildren st.ownerBuffer })) ∧
    (∀ st, st.capturingOwner = false → st.capturingDesignee = true →
      st.sections ≠ [] → st.designeeBuffer ≠ [] →
      lastTop? (finalFlush st).sections
        = (lastTop? st.sections).map
            (fun t => { t with children := t.children ++ flushChildren st.designeeBuffer })) ∧
    ((buildSections exC1multi).map
        (fun st => st.sections.map (fun t => (t.heading, t.children.map (fun s => s.heading))))
      = some [("Process Designees".data, ["Alice, Bob".data, "Carol".data]),
              ("4. Procedures".data, [])] ∧
     (buildSections exC1end).map
        (fun st => st.sections.map (fun t => (t.heading, t.children.map (fun s => s.heading))))
      = some [("3. Process Owner".data, ["Alice, Bob".data])] ∧
     (buildSections exC1owner).map
        (fun st => st.sections.map (fun t => (t.heading, t.children.map (fun s => s.heading))))
      = some [("3. Process Owner".data, []), ("4. Procedures".data, [])]) := by
  refine ⟨?_, ?_, ?_, ?_, ?_, by decide, by decide, by decide⟩
  · intro buf
    constructor
    · unfold flushChildren
      rw [List.map_map]
      have hcomp : ((fun (c : SubNode) => c.heading) ∘ fun t => (⟨t, [], []⟩ : SubNode))
          = id := rfl
      rw [hcomp, List.map_id]
    · intro c hc
      unfold flushChildren at hc
      rw [List.mem_map] at hc
      obtain ⟨t, _, rfl⟩ := hc
      exact ⟨rfl, rfl⟩
  · intro st text low hc ht hne
    have hie : st.sections.isEmpty = false := by
      cases h : st.sections with
      | nil => exact absurd h hne
      | cons a l => rfl
    constructor
    · unfold phaseDesignee
      rw [hc, ht, hie]
      rfl
    · exact modifyLast_getLast? _ st.sections
  · intro st text stripped low ho hterm hne
    have hie : st.sections.isEmpty = false := by
      cases h : st.sections with
      | nil => exact absurd h hne
      | cons a l => rfl
    have hcond : ((matchSingleLevel text && !matchTwoLevel text) || seqKwMatch st low
        || matchProcessDesignee stripped) = true := by
      rcases hterm with h | h <;> simp [h]
    constructor
    · unfold phaseOwner
      rw [ho, hcond, hie]
      rfl
    · exact modifyLast_getLast? _ st.sections
  · intro st ho hd hne hbuf
    have hie : st.sections.isEmpty = false := by
      cases h : st.sections with
      | nil => exact absurd h hne
      | cons a l => rfl
    have hbe : st.ownerBuffer.isEmpty = false := by
      cases h : st.ownerBuffer with
      | nil => exact absurd h hbuf
      | cons a l => rfl
    simp [finalFlush, lastTop?, ho, hd, hie, hbe, modifyLast_getLast?]
  · intro st ho hd hne hbuf
    have hie : st.sections.isEmpty = false := by
      cases h : st.sections with
      | nil => exact absurd h hne
      | cons a l => rfl
    have hbe : st.designeeBuffer.isEmpty = false := by
      cases h : st.designeeBuffer with
      | nil => exact absurd h hbuf
      | cons a l => rfl
    simp [finalFlush, lastTop?, ho, hd, hie, hbe, modifyLast_getLast?]

/-- Witness for the amended C1: an in-pass designee flush of a concrete
two-line buffer attaches both lines whole under the top, and a concrete
end-of-input owner flush does the same. -/
theorem flush_keeps_lines_whole_witness :
    phaseDesignee wDesSt "4. Procedures".data
        (normalize (stripNumericLead "4. Procedures".data))
      = .more { wDesSt with
          sections := modifyLast
            (fun t => { t with children := t.children ++ flushChildren wDesSt.designeeBuffer })
            wDesSt.sections,
          designeeBuffer := [], capturingDesignee := false } ∧
    lastTop? (finalFlush wOwnSt).sections
      = (lastTop? wOwnSt.sections).map
          (fun t => { t with children := t.children ++ flushChildren wOwnSt.ownerBuffer }) :=
  ⟨(flush_keeps_lines_whole.2.1 wDesSt "4. Procedures".data
      (normalize (stripNumericLead "4. Procedures".data)) rfl (by decide) (by decide)).1,
   flush_keeps_lines_whole.2.2.2.1 wOwnSt rfl rfl (by decide) (by decide)⟩

/-- C3 counterexample: with no anchor headings at all, the parse returns an
empty purpose/scope block but also an empty sections list — the paragraphs
are skipped entirely, whereas running the section pass from the first
paragraph would have produced a "4. Procedures" section. -/
theorem anchors_missing_cex :
    (parseLegacy exC3 []).map (fun r => (r.purpose_scope_block, r.sections)) = some ([], []) ∧
    (buildSections exC3).map (fun st => st.sections)
      = some [⟨"4. Procedures".data, ["step one".data], []⟩] := by decide

/-- C4 counterexample: an emphasized ThreeLevel paragraph with no open
subclause is not appended as content — it matches the TwoLevel branch and
becomes a new child node of the current top. -/
theorem threelevel_orphan_cex :
    (buildSections exC4).map (fun st => st.sections)
      = some [⟨"4. Procedures".data, [], [⟨"1.2.3 Orphan".data, [], []⟩]⟩] ∧
    ¬ ((buildSections exC4).map (fun st => st.sections)
      = some [⟨"4. Procedures".data, ["1.2.3 Orphan".data], []⟩]) := by decide

/-- C5 counterexample: under a top whose normalized stripped heading starts
with "records" but is not exactly "records", a bold subclause line becomes a
child node, not flat content — the records test is equality, not
`startswith`. -/
theorem records_flatten_cex :
    startsWith (normalize (stripNumericLead "6. Records Management".data)) "records".data = true ∧
    (buildSections exC5).map (fun st => st.sections.drop 1)
      = some [⟨"6. Records Management".data, [], [⟨"6.1 Retention".data, [], []⟩]⟩] := by decide

/-- C6: evaluation at the failing input — while the owner capture is active
the single-level terminator "4. Procedures" does not flush the buffered line
"Alice" into a child: the single-level branch precedes the owner-capture
check and `create_top` discards the buffer, so "Process Owner" ends with no
children. -/
theorem owner_terminator_drops_buffer :
    (buildSections exC6).map (fun st => st.sections.map (fun t => (t.heading, t.children)))
      = some [("2. Definitions".data, []), ("3. Process Owner".data, []),
              ("4. Procedures".data, [])] := by decide

/-- C7 counterexample: `".x"` does not begin with a numeric prefix of the
form digits(.digits)* — its first character is a dot, not a digit — yet the
stripper removes the dot and returns `"x"` instead of the trimmed input. -/
theorem numeric_lead_cex :
    stripNumericLead ".x".data = "x".data ∧
    pyStrip ".x".data = ".x".data ∧
    (".x".data.headD ' ').isDigit = false := by decide

/-- C7 amended: when the trimmed input starts with a digit or a dot, the
stripper removes the maximal leading run of digit-or-dot characters — any
arrangement of digits and dots, not only digits(.digits)* — together with
the whitespace that follows it and re-trims the remainder, unless that
remainder contains an embedded newline, in which case the regex fails to
match and the trimmed input is returned unchanged; a string whose trimmed
form starts with neither a digit nor a dot is also returned merely
trimmed. -/
theorem numeric_lead_amended (s : List Char) (c : Char) (rest : List Char)
    (h : pyStrip s = c :: rest) :
    stripNumericLead s =
      (if isNumDot c then
        (let r := ((c :: rest).dropWhile isNumDot).dropWhile Char.isWhitespace
         if r.contains '\n' then c :: rest else pyStrip r)
       else c :: rest) := by
  simp only [stripNumericLead, h]

/-- Witness for the amended C7: at `"1.2.x"` the whole run `"1.2."` is
removed even though it is not of the form digits(.digits)*, and at
`"1. a\nb"` the embedded newline blocks the regex so the input is returned
unchanged. -/
theorem numeric_lead_amended_witness :
    stripNumericLead "1.2.x".data =
      (if isNumDot '1' then
        (let r := (('1' :: ".2.x".data).dropWhile isNumDot).dropWhile Char.isWhitespace
         if r.contains '\n' then '1' :: ".2.x".data else pyStrip r)
       else '1' :: ".2.x".data) ∧
    stripNumericLead "1. a\nb".data =
      (if isNumDot '1' then
        (let r := (('1' :: ". a\nb".data).dropWhile isNumDot).dropWhile Char.isWhitespace
         if r.contains '\n' then '1' :: ". a\nb".data else pyStrip r)
       else '1' :: ". a\nb".data) :=
  ⟨numeric_lead_amended "1.2.x".data '1' ".2.x".data (by decide),
   numeric_lead_amended "1. a\nb".data '1' ". a\nb".data (by decide)⟩

/-- C10: a document with no non-blank paragraphs parses, without failing,
to the complete empty result: empty title, empty purpose/scope block, no
sections, and an empty written revision history (whatever tables exist). -/
theorem parse_blank_doc (paras : List Para) (tables : DocTables)
    (h : ∀ p ∈ paras, pyStrip p.text = []) :
    parseLegacy paras tables = some ⟨[], [], [], .written []⟩ := by
  have hf : paras.filter (fun p => !(pyStrip p.text).isEmpty) = [] :=
    List.filter_eq_nil_iff.mpr (by intro p hp; simp [h p hp])
  simp only [parseLegacy, hf]

/-- Witness for C10 on a whitespace-only document that has a table. -/
theorem parse_blank_doc_witness :
    parseLegacy [⟨"  ".data, true⟩] [[["x".data]]] = some ⟨[], [], [], .written []⟩ :=
  parse_blank_doc [⟨"  ".data, true⟩] [[["x".data]]] (by decide)



/-- Decompose a successful sub-subclause read into its three stages. -/
theorem subsubAt?_decomp {secs : List TopNode} {i j : Nat} {n : SubSubNode}
    (h : subsubAt? secs i j = some n) :
    ∃ t0 s0, secs.getLast? = some t0 ∧ t0.children.get? i = some s0 ∧
      s0.subsubs.get? j = some n := by
  unfold subsubAt? subAt? lastTop? at h
  obtain ⟨s0, hs0, hn⟩ := Option.bind_eq_some.mp h
  obtain ⟨t0, ht0, hs⟩ := Option.bind_eq_some.mp hs0
  exact ⟨t0, s0, ht0, hs, hn⟩

/-- Decompose a successful subclause read into its two stages. -/
theorem subAt?_decomp {secs : List TopNode} {i : Nat} {s : SubNode}
    (h : subAt? secs i = some s) :
    ∃ t0, secs.getLast? = some t0 ∧ t0.children.get? i = some s := by
  unfold subAt? lastTop? at h
  obtain ⟨t0, ht0, hs⟩ := Option.bind_eq_some.mp h
  exact ⟨t0, ht0, hs⟩

/-- Clearing the current sub-subclause empties exactly its content. -/
theorem clearCurSubSub_read (st : St) (i j : Nat) (n : SubSubNode)
    (hi : st.curSub = some i) (hj : st.curSubSub = some j)
    (hn : subsubAt? st.sections i j = some n) :
    subsubAt? (clearCurSubSub st).sections i j = some ⟨n.heading, []⟩ := by
  obtain ⟨t0, s0, ht0, hs, hss⟩ := subsubAt?_decomp hn
  unfold clearCurSubSub
  rw [hi, hj]
  show subsubAt? (modifySubSubAt st i j _).sections i j = _
  unfold modifySubSubAt modifySubAt subsubAt? subAt? lastTop?
  simp only [modifyLast_getLast?, ht0, Option.map_some', Option.some_bind,
    modAt_get?, hs, hss]

/-- Clearing the current subclause empties exactly its content. -/
theorem clearCurSub_read (st : St) (i : Nat) (s : SubNode)
    (hi : st.curSub = some i) (hs : subAt? st.sections i = some s) :
    subAt? (clearCurSub st).sections i = some ⟨s.heading, [], s.subsubs⟩ := by
  obtain ⟨t0, ht0, hc⟩ := subAt?_decomp hs
  unfold clearCurSub
  rw [hi]
  unfold modifySubAt subAt? lastTop?
  simp only [modifyLast_getLast?, ht0, Option.map_some', Option.some_bind,
    modAt_get?, hc]

/-- Clearing the current top empties exactly its content. -/
theorem clearCurTop_read (st : St) (t : TopNode)
    (ht : lastTop? st.sections = some t) :
    lastTop? (clearCurTop st).sections = some ⟨t.heading, [], t.children⟩ := by
  unfold clearCurTop lastTop?
  unfold lastTop? at ht
  simp only [modifyLast_getLast?, ht, Option.map_some']

/-- The reconciled sections are always the cleared ones. -/
theorem applyRevision_sections (tables : DocTables) (st : St) :
    (applyRevision tables st).2 = (clearDeepRev st).sections := by
  unfold applyRevision
  cases h : extractRevisionHistory tables <;> simp

/-- With no tables the reconciliation takes the written branch. -/
theorem applyRevision_written (st : St) :
    applyRevision [] st = (.written (deepRevContent st), (clearDeepRev st).sections) := rfl

/-- With a last table, the reconciled history carries its rows. -/
theorem applyRevision_fst_table (tables : DocTables) (st : St)
    (rows : List (List (List Char))) (h : tables.getLast? = some rows) :
    (applyRevision tables st).1 = .table (rows.map (fun row => row.map pyStrip)) := by
  unfold applyRevision extractRevisionHistory
  rw [h]

/-- The current sub-subclause read agrees with the index read. -/
theorem curSubSubNode?_eq (st : St) (i j : Nat)
    (hi : st.curSub = some i) (hj : st.curSubSub = some j) :
    curSubSubNode? st = subsubAt? st.sections i j := by
  unfold curSubSubNode?
  rw [hi, hj]

/-- The current subclause read agrees with the index read. -/
theorem curSubNode?_eq (st : St) (i : Nat) (hi : st.curSub = some i) :
    curSubNode? st = subAt? st.sections i := by
  unfold curSubNode?
  rw [hi]

/-- Target selection when the current sub-subclause mentions "revision". -/
theorem deepRev_cfg_subsub (st : St) (i j : Nat) (n : SubSubNode)
    (hi : st.curSub = some i) (hj : st.curSubSub = some j)
    (hn : subsubAt? st.sections i j = some n) (hr : isRevNode n.heading = true) :
    clearDeepRev st = clearCurSubSub st ∧ deepRevContent st = n.content := by
  have hcss : curSubSubNode? st = some n := by
    rw [curSubSubNode?_eq st i j hi hj]; exact hn
  unfold clearDeepRev deepRevContent
  rw [hcss]
  simp [Option.any, hr]

/-- Target selection when the current subclause is the deepest match. -/
theorem deepRev_cfg_sub (st : St) (i : Nat) (s : SubNode)
    (hi : st.curSub = some i) (hs : subAt? st.sections i = some s)
    (hr : isRevNode s.heading = true)
    (h0 : (curSubSubNode? st).any (fun m => isRevNode m.heading) = false) :
    clearDeepRev st = clearCurSub st ∧ deepRevContent st = s.content := by
  have hcs : curSubNode? st = some s := by
    rw [curSubNode?_eq st i hi]; exact hs
  unfold clearDeepRev deepRevContent
  rw [hcs, h0]
  simp [Option.any, hr]

/-- Target selection when the current top is the deepest match. -/
theorem deepRev_cfg_top (st : St) (t : TopNode)
    (ht : lastTop? st.sections = some t) (hr : isRevNode t.heading = true)
    (h0 : (curSubSubNode? st).any (fun m => isRevNode m.heading) = false)
    (h1 : (curSubNode? st).any (fun m => isRevNode m.heading) = false) :
    clearDeepRev st = clearCurTop st ∧ deepRevContent st = t.content := by
  have hct : curTop? st = some t := ht
  unfold clearDeepRev deepRevContent
  rw [hct, h0, h1]
  simp [Option.any, hr]

/-- Target selection when no active node mentions "revision". -/
theorem deepRev_cfg_none (st : St)
    (h0 : (curSubSubNode? st).any (fun m => isRevNode m.heading) = false)
    (h1 : (curSubNode? st).any (fun m => isRevNode m.heading) = false)
    (h2 : (curTop? st).any (fun m => isRevNode m.heading) = false) :
    clearDeepRev st = st ∧ deepRevContent st = [] := by
  unfold clearDeepRev deepRevContent
  rw [h0, h1, h2]
  simp

/-- C2: after the pass, a supplied trailing table makes the revision history
`Table` with the table's rows (header included, cells stripped exactly as the
extractor reads them) and the deepest active node whose normalized heading
contains "revision" has its content cleared; with no table the history is
`Written`, whose lines are that node's accumulated content, moved — the node
itself is left cleared; with no matching active node the written lines are
empty and the sections are returned unaltered. -/
theorem revision_stage_behavior (st : St) (tables : DocTables) :
    (∀ rows, tables.getLast? = some rows →
        (applyRevision tables st).1 = .table (rows.map (fun row => row.map pyStrip))) ∧
    (∀ i j n, st.curSub = some i → st.curSubSub = some j →
        subsubAt? st.sections i j = some n → isRevNode n.heading = true →
        subsubAt? (applyRevision tables st).2 i j = some ⟨n.heading, []⟩ ∧
        (tables = [] → (applyRevision tables st).1 = .written n.content)) ∧
    (∀ i s, st.curSub = some i → subAt? st.sections i = some s →
        isRevNode s.heading = true →
        (curSubSubNode? st).any (fun m => isRevNode m.heading) = false →
        subAt? (applyRevision tables st).2 i = some ⟨s.heading, [], s.subsubs⟩ ∧
        (tables = [] → (applyRevision tables st).1 = .written s.content)) ∧
    (∀ t, lastTop? st.sections = some t → isRevNode t.heading = true →
        (curSubSubNode? st).any (fun m => isRevNode m.heading) = false →
        (curSubNode? st).any (fun m => isRevNode m.heading) = false →
        lastTop? (applyRevision tables st).2 = some ⟨t.heading, [], t.children⟩ ∧
        (tables = [] → (applyRevision tables st).1 = .written t.content)) ∧
    ((curSubSubNode? st).any (fun m => isRevNode m.heading) = false →
        (curSubNode? st).any (fun m => isRevNode m.heading) = false →
        (curTop? st).any (fun m => isRevNode m.heading) = false →
        (applyRevision tables st).2 = st.sections ∧
        (tables = [] → (applyRevision tables st).1 = .written [])) := by
  refine ⟨?_, ?_, ?_, ?_, ?_⟩
  · intro rows hrows
    exact applyRevision_fst_table tables st rows hrows
  · intro i j n hi hj hn hr
    obtain ⟨hclear, hcontent⟩ := deepRev_cfg_subsub st i j n hi hj hn hr
    refine ⟨?_, ?_⟩
    · rw [applyRevision_sections, hclear]
      exact clearCurSubSub_read st i j n hi hj hn
    · intro htab
      subst htab
      rw [applyRevision_written, hcontent]
  · intro i s hi hs hr h0
    obtain ⟨hclear, hcontent⟩ := deepRev_cfg_sub st i s hi hs hr h0
    refine ⟨?_, ?_⟩
    · rw [applyRevision_sections, hclear]
      exact clearCurSub_read st i s hi hs
    · intro htab
      subst htab
      rw [applyRevision_written, hcontent]
  · intro t ht hr h0 h1
    obtain ⟨hclear, hcontent⟩ := deepRev_cfg_top st t ht hr h0 h1
    refine ⟨?_, ?_⟩
    · rw [applyRevision_sections, hclear]
      exact clearCurTop_read st t ht
    · intro htab
      subst htab
      rw [applyRevision_written, hcontent]
  · intro h0 h1 h2
    obtain ⟨hclear, hcontent⟩ := deepRev_cfg_none st h0 h1 h2
    refine ⟨?_, ?_⟩
    · rw [applyRevision_sections, hclear]
    · intro htab
      subst htab
      rw [applyRevision_written, hcontent]



/-- The transformer ResInv is monotone in the predicate. -/
theorem ResInv_mono {P Q : St → Prop} (h : ∀ s, P s → Q s) :
    ∀ {r : PhaseRes}, ResInv P r → ResInv Q r
  | .done none, _ => trivial
  | .done (some s), hp => h s hp
  | .more s, hp => h s hp

/-- Chaining a phase with the rest of the classification preserves an
invariant that each part preserves. -/
theorem seqP_pres {P : St → Prop} {r : PhaseRes} {k : St → Option St} {out : St}
    (hr : ResInv P r) (hk : ∀ s o, P s → k s = some o → P o)
    (h : seqP r k = some out) : P out := by
  cases r with
  | done o =>
    cases o with
    | none => simp [seqP] at h
    | some s =>
      simp [seqP] at h
      exact h ▸ hr
  | more s => exact hk s out hr h

/-- A single classification step preserves any predicate preserved by
`createTop` and by each of its phases. -/
theorem step_pres {P : St → Prop}
    (hC : ∀ s htxt, P s → P (createTop s htxt))
    (h1 : ∀ s a b, P s → ResInv P (phaseDesignee s a b))
    (h2 : ∀ s a b, P s → ResInv P (phaseSingle s a b))
    (h3 : ∀ s a b c, P s → ResInv P (phaseOwner s a b c))
    (h4 : ∀ s a b, P s → ResInv P (phaseKeyword s a b))
    (h5 : ∀ s a, P s → ResInv P (phaseOwnerChild s a))
    (h6 : ∀ s a, P s → ResInv P (phaseDesigneeStart s a))
    (h7 : ∀ s a b, P s → ResInv P (phaseDefinitions s a b))
    (h8 : ∀ s a b c, P s → ResInv P (phasePolicy s a b c))
    (h9 : ∀ s a c, P s → ResInv P (phaseSubSub s a c))
    (h10 : ∀ s a c, P s → ResInv P (phaseSub s a c))
    (h11 : ∀ s a c, P s → ResInv P (phaseOtherBold s a c))
    (h12 : ∀ s a o, P s → phasePlain s a = some o → P o)
    (st : St) (p : Para) (out : St) (h : step st p = some out) (hP : P st) : P out := by
  simp only [step] at h
  split at h
  · cases h; exact hP
  · split at h
    · cases h; exact hC st _ hP
    · split at h
      · cases h; exact hC st _ hP
      · split at h
        · cases h; exact hP
        · refine seqP_pres (h1 st _ _ hP) (fun s1 o1 hp1 hh1 => ?_) h
          refine seqP_pres (h2 s1 _ _ hp1) (fun s2 o2 hp2 hh2 => ?_) hh1
          refine seqP_pres (h3 s2 _ _ _ hp2) (fun s3 o3 hp3 hh3 => ?_) hh2
          refine seqP_pres (h4 s3 _ _ hp3) (fun s4 o4 hp4 hh4 => ?_) hh3
          refine seqP_pres (h5 s4 _ hp4) (fun s5 o5 hp5 hh5 => ?_) hh4
          refine seqP_pres (h6 s5 _ hp5) (fun s6 o6 hp6 hh6 => ?_) hh5
          refine seqP_pres (h7 s6 _ _ hp6) (fun s7 o7 hp7 hh7 => ?_) hh6
          refine seqP_pres (h8 s7 _ _ _ hp7) (fun s8 o8 hp8 hh8 => ?_) hh7
          refine seqP_pres (h9 s8 _ _ hp8) (fun s9 o9 hp9 hh9 => ?_) hh8
          refine seqP_pres (h10 s9 _ _ hp9) (fun s10 o10 hp10 hh10 => ?_) hh9
          refine seqP_pres (h11 s10 _ _ hp10) (fun s11 o11 hp11 hh11 => ?_) hh10
          exact h12 s11 _ o11 hp11 hh11

/-- The sequence tracker never moves backwards inside `advanceIdx`. -/
theorem advanceIdx_le (i : Nat) (sh : List Char) : i ≤ advanceIdx i sh := by
  unfold advanceIdx
  split
  · split <;> omega
  · exact Nat.le_refl i

/-- Operation create_top never moves the tracker backwards. -/
theorem createTop_idx_le (st : St) (h : List Char) :
    st.nextTopIdx ≤ (createTop st h).nextTopIdx :=
  advanceIdx_le st.nextTopIdx _

theorem phaseDesignee_idx (s : St) (a b : List Char) :
    ResInv (fun o => s.nextTopIdx ≤ o.nextTopIdx) (phaseDesignee s a b) := by
  unfold phaseDesignee
  split
  · split
    · split
      · trivial
      · exact Nat.le_refl _
    · exact Nat.le_refl _
  · exact Nat.le_refl _

theorem phaseSingle_idx (s : St) (a b : List Char) :
    ResInv (fun o => s.nextTopIdx ≤ o.nextTopIdx) (phaseSingle s a b) := by
  unfold phaseSingle
  split
  · split
    · exact createTop_idx_le s a
    · exact createTop_idx_le s a
  · exact Nat.le_refl _

theorem phaseOwner_idx (s : St) (a b c : List Char) :
    ResInv (fun o => s.nextTopIdx ≤ o.nextTopIdx) (phaseOwner s a b c) := by
  unfold phaseOwner
  split
  · split
    · split
      · trivial
      · exact Nat.le_refl _
    · exact Nat.le_refl _
  · exact Nat.le_refl _

theorem phaseKeyword_idx (s : St) (a b : List Char) :
    ResInv (fun o => s.nextTopIdx ≤ o.nextTopIdx) (phaseKeyword s a b) := by
  unfold phaseKeyword
  split
  · split
    · split
      · exact createTop_idx_le s a
      · exact createTop_idx_le s a
    · exact Nat.le_refl _
  · exact Nat.le_refl _

theorem phaseOwnerChild_idx (s : St) (a : List Char) :
    ResInv (fun o => s.nextTopIdx ≤ o.nextTopIdx) (phaseOwnerChild s a) := by
  unfold phaseOwnerChild
  split
  · split
    · trivial
    · exact Nat.le_refl _
  · exact Nat.le_refl _

theorem phaseDesigneeStart_idx (s : St) (a : List Char) :
    ResInv (fun o => s.nextTopIdx ≤ o.nextTopIdx) (phaseDesigneeStart s a) := by
  unfold phaseDesigneeStart
  split
  · exact createTop_idx_le s _
  · exact Nat.le_refl _

theorem phaseDefinitions_idx (s : St) (a b : List Char) :
    ResInv (fun o => s.nextTopIdx ≤ o.nextTopIdx) (phaseDefinitions s a b) := by
  unfold phaseDefinitions
  split
  · split
    · exact Nat.le_refl _
    · split
      · exact Nat.le_refl _
      · split
        · exact Nat.le_refl _
        · exact Nat.le_refl _
  · exact Nat.le_refl _

theorem phasePolicy_idx (s : St) (a b : List Char) (c : Bool) :
    ResInv (fun o => s.nextTopIdx ≤ o.nextTopIdx) (phasePolicy s a b c) := by
  unfold phasePolicy
  split
  · split
    · exact Nat.le_refl _
    · split
      · exact Nat.le_refl _
      · split
        · exact Nat.le_refl _
        · exact Nat.le_refl _
  · exact Nat.le_refl _

theorem phaseSubSub_idx (s : St) (a : List Char) (c : Bool) :
    ResInv (fun o => s.nextTopIdx ≤ o.nextTopIdx) (phaseSubSub s a c) := by
  unfold phaseSubSub
  split
  · split
    · exact Nat.le_refl _
    · exact Nat.le_refl _
  · exact Nat.le_refl _

theorem phaseSub_idx (s : St) (a : List Char) (c : Bool) :
    ResInv (fun o => s.nextTopIdx ≤ o.nextTopIdx) (phaseSub s a c) := by
  unfold phaseSub
  split
  · split
    · exact Nat.le_refl _
    · split
      · exact Nat.le_refl _
      · exact Nat.le_refl _
  · exact Nat.le_refl _

theorem phaseOtherBold_idx (s : St) (a : List Char) (c : Bool) :
    ResInv (fun o => s.nextTopIdx ≤ o.nextTopIdx) (phaseOtherBold s a c) := by
  unfold phaseOtherBold
  split
  · split
    · exact Nat.le_refl _
    · split
      · exact Nat.le_refl _
      · exact Nat.le_refl _
      · split
        · trivial
        · exact Nat.le_refl _
  · exact Nat.le_refl _

theorem phasePlain_idx (s : St) (a : List Char) (o : St)
    (h : phasePlain s a = some o) : s.nextTopIdx ≤ o.nextTopIdx := by
  unfold phasePlain at h
  split at h
  · cases h; exact Nat.le_refl _
  · cases h; exact Nat.le_refl _
  · split at h <;> (cases h; exact Nat.le_refl _)

/-- One classification step never moves the tracker backwards. -/
theorem step_idx_le (st : St) (p : Para) (out : St) (h : step st p = some out) :
    st.nextTopIdx ≤ out.nextTopIdx := by
  refine step_pres (P := fun o => st.nextTopIdx ≤ o.nextTopIdx)
    (fun s htxt hp => Nat.le_trans hp (createTop_idx_le s htxt))
    (fun s a b hp => ResInv_mono (fun o ho => Nat.le_trans hp ho) (phaseDesignee_idx s a b))
    (fun s a b hp => ResInv_mono (fun o ho => Nat.le_trans hp ho) (phaseSingle_idx s a b))
    (fun s a b c hp => ResInv_mono (fun o ho => Nat.le_trans hp ho) (phaseOwner_idx s a b c))
    (fun s a b hp => ResInv_mono (fun o ho => Nat.le_trans hp ho) (phaseKeyword_idx s a b))
    (fun s a hp => ResInv_mono (fun o ho => Nat.le_trans hp ho) (phaseOwnerChild_idx s a))
    (fun s a hp => ResInv_mono (fun o ho => Nat.le_trans hp ho) (phaseDesigneeStart_idx s a))
    (fun s a b hp => ResInv_mono (fun o ho => Nat.le_trans hp ho) (phaseDefinitions_idx s a b))
    (fun s a b c hp => ResInv_mono (fun o ho => Nat.le_trans hp ho) (phasePolicy_idx s a b c))
    (fun s a c hp => ResInv_mono (fun o ho => Nat.le_trans hp ho) (phaseSubSub_idx s a c))
    (fun s a c hp => ResInv_mono (fun o ho => Nat.le_trans hp ho) (phaseSub_idx s a c))
    (fun s a c hp => ResInv_mono (fun o ho => Nat.le_trans hp ho) (phaseOtherBold_idx s a c))
    (fun s a o hp ho => Nat.le_trans hp (phasePlain_idx s a o ho))
    st p out h (Nat.le_refl _)


theorem createTop_flagInv (s : St) (htxt : List Char) : FlagInv (createTop s htxt) := rfl

theorem phaseDesignee_flags (s : St) (a b : List Char) (hp : FlagInv s) :
    ResInv FlagInv (phaseDesignee s a b) := by
  unfold phaseDesignee
  split
  · split
    · split
      · trivial
      · show (s.capturingOwner && false) = false
        simp
    · exact hp
  · exact hp

theorem phaseSingle_flags (s : St) (a b : List Char) (hp : FlagInv s) :
    ResInv FlagInv (phaseSingle s a b) := by
  unfold phaseSingle
  split
  · split
    · show (true && (createTop s a).capturingDesignee) = false
      rfl
    · rfl
  · exact hp

theorem phaseOwner_flags (s : St) (a b c : List Char) (hp : FlagInv s) :
    ResInv FlagInv (phaseOwner s a b c) := by
  unfold phaseOwner
  split
  · split
    · split
      · trivial
      · show (false && s.capturingDesignee) = false
        rfl
    · exact hp
  · exact hp

theorem phaseKeyword_flags (s : St) (a b : List Char) (hp : FlagInv s) :
    ResInv FlagInv (phaseKeyword s a b) := by
  unfold phaseKeyword
  split
  · split
    · split
      · rfl
      · rfl
    · exact hp
  · exact hp

theorem phaseOwnerChild_flags (s : St) (a : List Char) (hp : FlagInv s) :
    ResInv FlagInv (phaseOwnerChild s a) := by
  unfold phaseOwnerChild
  split
  · split
    · trivial
    · exact hp
  · exact hp

theorem phaseDesigneeStart_flags (s : St) (a : List Char) (hp : FlagInv s) :
    ResInv FlagInv (phaseDesigneeStart s a) := by
  unfold phaseDesigneeStart
  split
  · rfl
  · exact hp

theorem phaseDefinitions_flags (s : St) (a b : List Char) (hp : FlagInv s) :
    ResInv FlagInv (phaseDefinitions s a b) := by
  unfold phaseDefinitions
  split
  · split
    · exact hp
    · split
      · exact hp
      · split
        · exact hp
        · exact hp
  · exact hp

theorem phasePolicy_flags (s : St) (a b : List Char) (c : Bool) (hp : FlagInv s) :
    ResInv FlagInv (phasePolicy s a b c) := by
  unfold phasePolicy
  split
  · split
    · exact hp
    · split
      · exact hp
      · split
        · exact hp
        · exact hp
  · exact hp

theorem phaseSubSub_flags (s : St) (a : List Char) (c : Bool) (hp : FlagInv s) :
    ResInv FlagInv (phaseSubSub s a c) := by
  unfold phaseSubSub
  split
  · split
    · exact hp
    · exact hp
  · exact hp

theorem phaseSub_flags (s : St) (a : List Char) (c : Bool) (hp : FlagInv s) :
    ResInv FlagInv (phaseSub s a c) := by
  unfold phaseSub
  split
  · split
    · exact hp
    · split
      · exact hp
      · exact hp
  · exact hp

theorem phaseOtherBold_flags (s : St) (a : List Char) (c : Bool) (hp : FlagInv s) :
    ResInv FlagInv (phaseOtherBold s a c) := by
  unfold phaseOtherBold
  split
  · split
    · exact hp
    · split
      · exact hp
      · exact hp
      · split
        · trivial
        · exact hp
  · exact hp

theorem phasePlain_flags (s : St) (a : List Char) (o : St)
    (h : phasePlain s a = some o) (hp : FlagInv s) : FlagInv o := by
  unfold phasePlain at h
  split at h
  · cases h; exact hp
  · cases h; exact hp
  · split at h <;> (cases h; exact hp)

/-- One classification step preserves capture-mode exclusivity. -/
theorem step_flagInv (st : St) (p : Para) (out : St)
    (h : step st p = some out) (hP : FlagInv st) : FlagInv out :=
  step_pres (P := FlagInv)
    (fun s htxt _ => createTop_flagInv s htxt)
    phaseDesignee_flags phaseSingle_flags phaseOwner_flags phaseKeyword_flags
    phaseOwnerChild_flags phaseDesigneeStart_flags phaseDefinitions_flags
    phasePolicy_flags phaseSubSub_flags phaseSub_flags phaseOtherBold_flags
    (fun s a o hp hh => phasePlain_flags s a o hh hp)
    st p out h hP

/-- C8: throughout the pass the canonical-keyword pointer is monotonically
non-decreasing: no classification step and no final flush ever moves it
backwards, and each top-level node creation advances it by exactly one
position when the new heading's normalized, prefix-stripped text starts with
the currently expected keyword and leaves it unchanged otherwise (also when
the whole keyword list is exhausted). -/
theorem tracker_monotone :
    (∀ st p out, step st p = some out → st.nextTopIdx ≤ out.nextTopIdx) ∧
    (∀ st h kw, TLS.get? st.nextTopIdx = some kw →
        (createTop st h).nextTopIdx =
          (if startsWith (normalize (stripNumericLead h)) kw then st.nextTopIdx + 1
           else st.nextTopIdx)) ∧
    (∀ st h, TLS.get? st.nextTopIdx = none →
        (createTop st h).nextTopIdx = st.nextTopIdx) ∧
    (∀ st, (finalFlush st).nextTopIdx = st.nextTopIdx) := by
  refine ⟨step_idx_le, ?_, ?_, ?_⟩
  · intro st h kw hk
    show advanceIdx st.nextTopIdx (normalize (stripNumericLead h)) = _
    unfold advanceIdx
    rw [hk]
  · intro st h hk
    show advanceIdx st.nextTopIdx (normalize (stripNumericLead h)) = _
    unfold advanceIdx
    rw [hk]
  · intro st
    simp only [finalFlush]
    split <;> (try dsimp only) <;> split <;> rfl

/-- Witness for C8: a concrete advancing step and a concrete `create_top`. -/
theorem tracker_monotone_witness :
    initSt.nextTopIdx ≤
      ((step initSt ⟨"2. Definitions".data, false⟩).getD initSt).nextTopIdx ∧
    (createTop initSt "2. Definitions".data).nextTopIdx =
      (if startsWith (normalize (stripNumericLead "2. Definitions".data)) "definitions".data
       then initSt.nextTopIdx + 1 else initSt.nextTopIdx) ∧
    (finalFlush initSt).nextTopIdx = initSt.nextTopIdx := by
  refine ⟨tracker_monotone.1 initSt ⟨"2. Definitions".data, false⟩ _ ?_,
          tracker_monotone.2.1 initSt "2. Definitions".data "definitions".data ?_,
          tracker_monotone.2.2.2 initSt⟩
  · decide
  · rfl

/-- C9: at every point of the parse at most one of the owner/designee
buffering modes is active — it holds initially, every top-level node
creation forces both flags off, and every classification step preserves the
exclusivity. -/
theorem capture_modes_exclusive :
    (initSt.capturingOwner && initSt.capturingDesignee) = false ∧
    (∀ st h, ((createTop st h).capturingOwner && (createTop st h).capturingDesignee) = false) ∧
    (∀ st p out, step st p = some out →
        (st.capturingOwner && st.capturingDesignee) = false →
        (out.capturingOwner && out.capturingDesignee) = false) := by
  refine ⟨rfl, fun st h => rfl, ?_⟩
  intro st p out h hP
  exact step_flagInv st p out h hP

/-- Witness for C9: a concrete step out of a state with the owner capture
armed keeps the two modes exclusive. -/
theorem capture_modes_exclusive_witness :
    ((((step (createTop initSt "3. Process Owner".data) ⟨"Alice".data, false⟩).getD
        initSt).capturingOwner &&
      ((step (createTop initSt "3. Process Owner".data) ⟨"Alice".data, false⟩).getD
        initSt).capturingDesignee)) = false :=
  capture_modes_exclusive.2.2 (createTop initSt "3. Process Owner".data)
    ⟨"Alice".data, false⟩ _ (by decide) (by decide)

/-- A digit is not a whitespace character. -/
theorem digit_not_ws (c : Char) (h : c.isDigit = true) : c.isWhitespace = false := by
  by_contra hw
  rw [Bool.not_eq_false] at hw
  have hc : c = ' ' ∨ c = '\t' ∨ c = '\r' ∨ c = '\n' := by
    simpa [Char.isWhitespace, or_assoc] using hw
  rcases hc with rfl | rfl | rfl | rfl <;> simp [Char.isDigit] at h

/-- A whitespace character is not a digit. -/
theorem ws_not_digit (c : Char) (h : c.isWhitespace = true) : c.isDigit = false := by
  by_contra hd
  rw [Bool.not_eq_false] at hd
  rw [digit_not_ws c hd] at h
  exact Bool.false_ne_true h

/-- A ThreeLevel match is also a TwoLevel match, is never a SingleLevel
match, and only fires on non-empty text. -/
theorem matchThreeLevel_structure (s : List Char) (h3 : matchThreeLevel s = true) :
    matchTwoLevel s = true ∧ matchSingleLevel s = false ∧ s ≠ [] := by
  simp only [matchThreeLevel] at h3
  split at h3
  case h_2 => simp at h3
  case h_1 r1 heq =>
    rw [Bool.and_eq_true, Bool.and_eq_true] at h3
    obtain ⟨⟨hd1, hd2⟩, hmatch⟩ := h3
    clear hmatch
    obtain ⟨c1, rest, hr1⟩ : ∃ c1 rest, r1 = c1 :: rest := by
      cases r1 with
      | nil => simp at hd2
      | cons x xs => exact ⟨x, xs, rfl⟩
    have hc1 : c1.isDigit = true := by
      subst hr1
      by_contra hcd
      rw [Bool.not_eq_true] at hcd
      simp [List.takeWhile_cons, hcd] at hd2
    have htwo : matchTwoLevel s = true := by
      simp only [matchTwoLevel, Bool.and_eq_true]
      refine ⟨hd1, ?_⟩
      rw [heq, hr1]
      exact hc1
    have hne : s ≠ [] := by
      intro hnil
      subst hnil
      simp [List.dropWhile_nil] at heq
    refine ⟨htwo, ?_, hne⟩
    cases s with
    | nil => exact absurd rfl hne
    | cons c0 stail =>
      by_cases hws : c0.isWhitespace = true
      · have : (c0 :: stail).takeWhile Char.isDigit = [] := by
          simp [List.takeWhile_cons, ws_not_digit c0 hws]
        simp [matchSingleLevel, this]
      · have hdw : (c0 :: stail).dropWhile Char.isWhitespace = c0 :: stail := by
          simp [List.dropWhile_cons, hws]
        rw [hdw] at heq
        simp only [matchSingleLevel, heq, hr1]
        simp [digit_not_ws c1 hc1]

/-- C4 amended: a ThreeLevel-pattern paragraph met with no open subclause
(and not intercepted by a capture mode, a promotion rule, a skip rule, the
sequence keyword, or a Definitions/Policy-Reference/Records top) is appended
as plain content on the current top only when it is NOT emphasized; an
emphasized one instead matches the TwoLevel branch and becomes a new
subclause child of the current top. -/
theorem threelevel_orphan_amended (st : St) (tx : List Char) (bold : Bool) (tp : TopNode)
    (htrim : pyStrip tx = tx)
    (h3 : matchThreeLevel tx = true)
    (hsub : st.curSub = none) (_hss : st.curSubSub = none)
    (hco : st.capturingOwner = false) (hcd : st.capturingDesignee = false)
    (heo : st.expectOwnerChild = false)
    (hrec : startsWith (normalize (stripNumericLead tx)) "records".data = false)
    (hpol : startsWith (normalize (stripNumericLead tx)) "policy reference".data = false)
    (hrev : startsWith (normalize (stripNumericLead tx)) "revision history".data = false)
    (hkw : seqKwMatch st (normalize (stripNumericLead tx)) = false)
    (hpd : matchProcessDesignee (stripNumericLead tx) = false)
    (htp : curTop? st = some tp)
    (hdefs : startsWith (normalize (stripNumericLead tp.heading)) "definitions".data = false)
    (hpol2 : startsWith (normalize (stripNumericLead tp.heading)) "policy reference".data = false)
    (hrec2 : ¬ normalize (stripNumericLead tp.heading) = "records".data) :
    (bold = true →
      step st ⟨tx, bold⟩ = some { appendChild st ⟨tx, [], []⟩ with
        curSub := some (childCount st), curSubSub := none }) ∧
    (bold = false → step st ⟨tx, bold⟩ = some (modifyTopContent st tx)) := by
  obtain ⟨h2, h1, htxne⟩ := matchThreeLevel_structure tx h3
  have hie : tx.isEmpty = false := by
    cases tx with
    | nil => exact absurd rfl htxne
    | cons a l => rfl
  have hsec : st.sections.isEmpty = false := by
    cases hsecs : st.sections with
    | nil => rw [curTop?, lastTop?, hsecs] at htp; simp at htp
    | cons a l => rfl
  have e1 : phaseDesignee st tx (normalize (stripNumericLead tx)) = .more st := by
    unfold phaseDesignee; rw [hcd]; rfl
  have e2 : phaseSingle st tx (normalize (stripNumericLead tx)) = .more st := by
    unfold phaseSingle; rw [h1]; rfl
  have e3 : phaseOwner st tx (stripNumericLead tx) (normalize (stripNumericLead tx))
      = .more st := by
    unfold phaseOwner; rw [hco]; rfl
  have e4 : phaseKeyword st tx (normalize (stripNumericLead tx)) = .more st := by
    unfold phaseKeyword
    split
    · rename_i kw hkweq
      have hsw : startsWith (normalize (stripNumericLead tx)) kw = false := by
        unfold seqKwMatch at hkw
        rw [hkweq] at hkw
        simpa using hkw
      rw [hsw]
      rfl
    · rfl
  have e5 : phaseOwnerChild st tx = .more st := by
    unfold phaseOwnerChild; rw [heo]; rfl
  have e6 : phaseDesigneeStart st (stripNumericLead tx) = .more st := by
    unfold phaseDesigneeStart; rw [hpd]; rfl
  have e7 : phaseDefinitions st tx (normalize (stripNumericLead tx)) = .more st := by
    unfold phaseDefinitions
    rw [htp]
    simp only [Option.any]
    rw [hdefs]
    rfl
  have e8 : phasePolicy st tx (normalize (stripNumericLead tx)) bold = .more st := by
    unfold phasePolicy
    rw [htp]
    simp only [Option.any]
    rw [hpol2]
    rfl
  constructor
  · intro hb
    subst hb
    have e9 : phaseSubSub st tx true = .more st := by
      unfold phaseSubSub; rw [h3, hsub]; rfl
    have e10 : phaseSub st tx true = .done (some { appendChild st ⟨tx, [], []⟩ with
        curSub := some (childCount st), curSubSub := none }) := by
      unfold phaseSub
      rw [h2, htp]
      simp only [Option.any]
      rw [decide_eq_false hrec2, hsec]
      rfl
    simp [step, htrim, hie, hrec, hpol, hrev, e1, e2, e3, e4, e5, e6, e7, e8, e9, e10, seqP]
  · intro hb
    subst hb
    have eplain : phasePlain st tx = some (modifyTopContent st tx) := by
      unfold phasePlain
      rw [hsub, hsec]
      rfl
    simp [step, htrim, hie, hrec, hpol, hrev, e1, e2, e3, e4, e5, e6, e7, e8, seqP,
      phaseSubSub, phaseSub, phaseOtherBold, eplain]

/-- Witness for the amended C4 at a fresh "4. Procedures" top: the bold
variant creates a child, the plain variant lands in the top's content. -/
theorem threelevel_orphan_amended_witness :
    step (createTop initSt "4. Procedures".data) ⟨"1.2.3 Orphan".data, true⟩
      = some { appendChild (createTop initSt "4. Procedures".data) ⟨"1.2.3 Orphan".data, [], []⟩ with
          curSub := some (childCount (createTop initSt "4. Procedures".data)),
          curSubSub := none } ∧
    step (createTop initSt "4. Procedures".data) ⟨"1.2.3 Orphan".data, false⟩
      = some (modifyTopContent (createTop initSt "4. Procedures".data) "1.2.3 Orphan".data) :=
  ⟨(threelevel_orphan_amended (createTop initSt "4. Procedures".data) "1.2.3 Orphan".data
      true ⟨"4. Procedures".data, [], []⟩ (by decide) (by decide) (by decide) (by decide)
      (by decide) (by decide) (by decide) (by decide) (by decide) (by decide) (by decide)
      (by decide) (by decide) (by decide) (by decide) (by decide)).1 rfl,
   (threelevel_orphan_amended (createTop initSt "4. Procedures".data) "1.2.3 Orphan".data
      false ⟨"4. Procedures".data, [], []⟩ (by decide) (by decide) (by decide) (by decide)
      (by decide) (by decide) (by decide) (by decide) (by decide) (by decide) (by decide)
      (by decide) (by decide) (by decide) (by decide) (by decide)).2 rfl⟩

/-- C5 amended: the records flattening fires only when the current top's
normalized, prefix-stripped heading is exactly "records" (equality, not
`startswith`): under such a top every emphasized paragraph that reaches the
pattern-classification steps — including TwoLevel and ThreeLevel matches,
given no open subclause — is appended to the top's flat content and spawns
no child node. -/
theorem records_flatten_amended (st : St) (tx : List Char) (tp : TopNode)
    (htrim : pyStrip tx = tx) (htxne : tx ≠ [])
    (hsub : st.curSub = none)
    (hco : st.capturingOwner = false) (hcd : st.capturingDesignee = false)
    (heo : st.expectOwnerChild = false)
    (hrec : startsWith (normalize (stripNumericLead tx)) "records".data = false)
    (hpol : startsWith (normalize (stripNumericLead tx)) "policy reference".data = false)
    (hrev : startsWith (normalize (stripNumericLead tx)) "revision history".data = false)
    (hsl1 : (matchSingleLevel tx && !matchTwoLevel tx) = false)
    (hkw : seqKwMatch st (normalize (stripNumericLead tx)) = false)
    (hpd : matchProcessDesignee (stripNumericLead tx) = false)
    (htp : curTop? st = some tp)
    (hrectop : normalize (stripNumericLead tp.heading) = "records".data) :
    step st ⟨tx, true⟩ = some (modifyTopContent st tx) := by
  have hdefs : startsWith (normalize (stripNumericLead tp.heading)) "definitions".data
      = false := by rw [hrectop]; decide
  have hpol2 : startsWith (normalize (stripNumericLead tp.heading)) "policy reference".data
      = false := by rw [hrectop]; decide
  have hie : tx.isEmpty = false := by
    cases tx with
    | nil => exact absurd rfl htxne
    | cons a l => rfl
  have hsec : st.sections.isEmpty = false := by
    cases hsecs : st.sections with
    | nil => rw [curTop?, lastTop?, hsecs] at htp; simp at htp
    | cons a l => rfl
  have e1 : phaseDesignee st tx (normalize (stripNumericLead tx)) = .more st := by
    unfold phaseDesignee; rw [hcd]; rfl
  have e2 : phaseSingle st tx (normalize (stripNumericLead tx)) = .more st := by
    unfold phaseSingle; rw [hsl1]; rfl
  have e3 : phaseOwner st tx (stripNumericLead tx) (normalize (stripNumericLead tx))
      = .more st := by
    unfold phaseOwner; rw [hco]; rfl
  have e4 : phaseKeyword st tx (normalize (stripNumericLead tx)) = .more st := by
    unfold phaseKeyword
    split
    · rename_i kw hkweq
      have hsw : startsWith (normalize (stripNumericLead tx)) kw = false := by
        unfold seqKwMatch at hkw
        rw [hkweq] at hkw
        simpa using hkw
      rw [hsw]
      rfl
    · rfl
  have e5 : phaseOwnerChild st tx = .more st := by
    unfold phaseOwnerChild; rw [heo]; rfl
  have e6 : phaseDesigneeStart st (stripNumericLead tx) = .more st := by
    unfold phaseDesigneeStart; rw [hpd]; rfl
  have e7 : phaseDefinitions st tx (normalize (stripNumericLead tx)) = .more st := by
    unfold phaseDefinitions
    rw [htp]
    simp only [Option.any]
    rw [hdefs]
    rfl
  have e8 : phasePolicy st tx (normalize (stripNumericLead tx)) true = .more st := by
    unfold phasePolicy
    rw [htp]
    simp only [Option.any]
    rw [hpol2]
    rfl
  have e9 : phaseSubSub st tx true = .more st := by
    unfold phaseSubSub
    cases h3x : matchThreeLevel tx with
    | true => rw [hsub]; rfl
    | false => rfl
  have hrecB : (curTop? st).any
      (fun t => decide (normalize (stripNumericLead t.heading) = "records".data)) = true := by
    rw [htp]
    simp only [Option.any]
    rw [hrectop]
    decide
  cases h2x : matchTwoLevel tx with
  | true =>
    have e10 : phaseSub st tx true = .done (some (modifyTopContent st tx)) := by
      unfold phaseSub
      rw [h2x, hrecB]
      rfl
    simp [step, htrim, hie, hrec, hpol, hrev, e1, e2, e3, e4, e5, e6, e7, e8, e9, e10, seqP]
  | false =>
    have e10 : phaseSub st tx true = .more st := by
      unfold phaseSub
      rw [h2x]
      rfl
    have e11 : phaseOtherBold st tx true = .done (some (modifyTopContent st tx)) := by
      unfold phaseOtherBold
      rw [hrecB]
      rfl
    simp [step, htrim, hie, hrec, hpol, hrev, e1, e2, e3, e4, e5, e6, e7, e8, e9, e10,
      e11, seqP]

/-- Witness for the amended C5: a bold "6.1 Retention" under a "6. Records"
top lands in the top's flat content. -/
theorem records_flatten_amended_witness :
    step (createTop initSt "6. Records".data) ⟨"6.1 Retention".data, true⟩
      = some (modifyTopContent (createTop initSt "6. Records".data) "6.1 Retention".data) :=
  records_flatten_amended (createTop initSt "6. Records".data) "6.1 Retention".data
    ⟨"6. Records".data, [], []⟩ (by decide) (by decide) (by decide) (by decide) (by decide)
    (by decide) (by decide) (by decide) (by decide) (by decide) (by decide) (by decide)
    (by decide) (by decide)

/-- C3 amended: when the two anchor headings cannot both be located in
order, the purpose/scope block is empty, but the section-building pass does
NOT restart from the first paragraph: it starts from the "Definitions"
paragraph when one was found, and otherwise processes no paragraphs at all,
leaving the sections list empty. -/
theorem anchors_missing_amended (paras0 : List Para) (tables : DocTables)
    (hfail : anchorsFailB (findAnchors (paras0.filter (fun p => !(pyStrip p.text).isEmpty)))
      = true) :
    (∀ r, parseLegacy paras0 tables = some r → r.purpose_scope_block = []) ∧
    (∀ r, parseLegacy paras0 tables = some r →
        ∃ st, buildSections ((paras0.filter (fun p => !(pyStrip p.text).isEmpty)).drop
            ((findAnchors (paras0.filter (fun p => !(pyStrip p.text).isEmpty))).2.getD
              (paras0.filter (fun p => !(pyStrip p.text).isEmpty)).length)) = some st ∧
          r.sections = (applyRevision tables st).2) ∧
    ((findAnchors (paras0.filter (fun p => !(pyStrip p.text).isEmpty))).2 = none →
        ∀ r, parseLegacy paras0 tables = some r → r.sections = []) := by
  cases hfp : paras0.filter (fun p => !(pyStrip p.text).isEmpty) with
  | nil =>
    have hparse : parseLegacy paras0 tables = some ⟨[], [], [], .written []⟩ := by
      simp only [parseLegacy, hfp]
    refine ⟨?_, ?_, ?_⟩
    · intro r hr
      rw [hparse] at hr
      cases hr
      rfl
    · intro r hr
      rw [hparse] at hr
      cases hr
      refine ⟨initSt, ?_, ?_⟩
      · rfl
      · rw [applyRevision_sections]
        rfl
    · intro _ r hr
      rw [hparse] at hr
      cases hr
      rfl
  | cons p0 rest =>
    rw [hfp] at hfail
    rcases hanch : findAnchors (p0 :: rest) with ⟨ips, idef⟩
    rw [hanch] at hfail
    have hpsb :
        (match (ips, idef) with
         | (some a, some b) => if b ≤ a then [] else purposeScopeOf (p0 :: rest) a b
         | _ => ([] : List Char)) = [] := by
      match ips, idef with
      | some a, some b =>
        have hba : b ≤ a := by simpa [anchorsFailB] using hfail
        simp [hba]
      | some a, none => rfl
      | none, some b => rfl
      | none, none => rfl
    cases hbs : buildSections ((p0 :: rest).drop (idef.getD (p0 :: rest).length)) with
    | none =>
      have hparse : parseLegacy paras0 tables = none := by
        simp only [parseLegacy, hfp, hanch, hbs]
      refine ⟨?_, ?_, ?_⟩
      · intro r hr
        rw [hparse] at hr
        cases hr
      · intro r hr
        rw [hparse] at hr
        cases hr
      · intro _ r hr
        rw [hparse] at hr
        cases hr
    | some st =>
      have hparse : parseLegacy paras0 tables = some
          ⟨(match (p0 :: rest).find? (fun p => p.bold) with
            | some pb => pyStrip pb.text
            | none => pyStrip p0.text),
           (match (ips, idef) with
            | (some a, some b) => if b ≤ a then [] else purposeScopeOf (p0 :: rest) a b
            | _ => []),
           (applyRevision tables st).2, (applyRevision tables st).1⟩ := by
        simp only [parseLegacy, hfp, hanch, hbs]
      refine ⟨?_, ?_, ?_⟩
      · intro r hr
        rw [hparse] at hr
        cases hr
        exact hpsb
      · intro r hr
        rw [hparse] at hr
        cases hr
        exact ⟨st, rfl, rfl⟩
      · intro hnone r hr
        have hidef : idef = none := hnone
        subst hidef
        rw [hparse] at hr
        cases hr
        show (applyRevision tables st).2 = []
        have hbs0 : buildSections ((p0 :: rest).drop
            ((none : Option Nat).getD (p0 :: rest).length)) = some st := hbs
        have hdrop : (p0 :: rest).drop ((none : Option Nat).getD (p0 :: rest).length)
            = [] := List.drop_length (p0 :: rest)
        rw [hdrop] at hbs0
        have hst : st = initSt := by
          have h0 : buildSections [] = some initSt := rfl
          rw [h0] at hbs0
          exact (Option.some_inj.mp hbs0).symm
        subst hst
        rw [applyRevision_sections]
        rfl

/-- Witness for the amended C3 at a document with no anchors at all. -/
theorem anchors_missing_amended_witness :
    (∀ r, parseLegacy exC3 [] = some r → r.purpose_scope_block = []) ∧
    ((findAnchors (exC3.filter (fun p => !(pyStrip p.text).isEmpty))).2 = none →
        ∀ r, parseLegacy exC3 [] = some r → r.sections = []) :=
  ⟨(anchors_missing_amended exC3 [] (by decide)).1,
   (anchors_missing_amended exC3 [] (by decide)).2.2⟩

/-- Witness for C2 at a concrete final state with no table: the written
history receives the node's line and the node is cleared. -/
theorem revision_stage_behavior_witness :
    lastTop? (applyRevision [] wRevSt).2 = some ⟨"7. Revisions".data, [], []⟩ ∧
    (applyRevision [] wRevSt).1 = .written ["old line".data] := by
  have h := (revision_stage_behavior wRevSt []).2.2.2.1
    ⟨"7. Revisions".data, ["old line".data], []⟩ (by decide) (by decide) (by decide) (by decide)
  exact ⟨h.1, h.2 rfl⟩

end BulkDoc
